import Mathlib

/-!
Verification of the quizbot buzzer core (`quizbot/services/game_service.py`,
`quizbot/services/game_state.py`, `quizbot/handlers/callbacks.py`).

The durable store (SQLAlchemy tables `players`, `teams`, `team_members`,
`games`, `game_participants`) is embedded as lists of rows; SQL `SELECT ...
scalar()` becomes `List.find?` on the row list, `ORDER BY` becomes a stable
`mergeSort`.  The ephemeral per-game round queue (`game_state.STATE`, a dict
from game id to a team-id list) is embedded as a total function
`Nat → List Nat` defaulting to the empty list, exactly the dict-with-default
behaviour of `get_state`.  Game status is the literal status string stored in
`Game.status` (`"idle"`, `"running"`, `"question"`, `"finished"`).  The
`finished_at` timestamp is an abstract `Option Nat`; `datetime.now(UTC)` is a
`now` parameter.  Auto-increment primary keys chosen by the database are
passed as explicit `newId` arguments.
-/

namespace Quizbot

/-- Row of the `players` table (`quizbot.models.Player`). -/
structure Player where
  id : Nat
  tg_user_id : Int
  username : Option String
  full_name : Option String
deriving DecidableEq

/-- Row of the `teams` table (`quizbot.models.Team`). -/
structure Team where
  id : Nat
  name : String
deriving DecidableEq

/-- Row of the `team_members` table (`quizbot.models.TeamMember`). -/
structure TeamMember where
  team_id : Nat
  player_id : Nat
deriving DecidableEq

/-- Row of the `games` table (`quizbot.models.Game`). -/
structure Game where
  id : Nat
  owner_user_id : Int
  status : String
  created_at : Nat
  finished_at : Option Nat
deriving DecidableEq

/-- Row of the `game_participants` table (`quizbot.models.GameParticipant`). -/
structure GameParticipant where
  game_id : Nat
  team_id : Nat
  score : Int
deriving DecidableEq

/-- The durable store: the row lists of the four tables the claims touch. -/
structure DB where
  players : List Player
  teams : List Team
  members : List TeamMember
  participants : List GameParticipant
deriving DecidableEq

/-- The in-memory round queues (`game_state.STATE`): game id to team-id list,
empty when the key was never touched, as in `get_state`. -/
abbrev QMap := Nat → List Nat

/-- `game_state.get_state(game_id).queue`. -/
def get_state (m : QMap) (game_id : Nat) : List Nat := m game_id

/-- `game_state.reset_round(game_id)`: clears that game's queue. -/
def reset_round (m : QMap) (game_id : Nat) : QMap :=
  fun g => if g = game_id then [] else m g

/-- Write one game's queue, leaving the other games untouched. -/
def set_queue (m : QMap) (game_id : Nat) (q : List Nat) : QMap :=
  fun g => if g = game_id then q else m g

/-- Lexicographic (code-point) order on character lists: the order SQL uses
for `ORDER BY teams.name ASC` on UTF-8 text. -/
def charListLe : List Char → List Char → Bool
  | [], _ => true
  | _ :: _, [] => false
  | a :: as, b :: bs => if a = b then charListLe as bs else decide (a < b)

/-- Lexicographic order on strings, through their character lists. -/
def nameLe (a b : String) : Bool := charListLe a.data b.data

/-- Python `str.strip()`: drop leading and trailing whitespace. -/
def pyStrip (s : String) : String :=
  ⟨((s.data.dropWhile Char.isWhitespace).reverse.dropWhile Char.isWhitespace).reverse⟩

/-- ASCII lower-casing: Python `str.lower()` / SQL `lower()` on the names
this bot handles. -/
def pyLower (s : String) : String := ⟨s.data.map Char.toLower⟩

/-- Python truthiness of an optional string: `None` and `""` are falsy. -/
def truthy : Option String → Bool
  | none => false
  | some s => s ≠ ""

/-- The `if username and player.username != username` update step of
`get_or_create_player`. -/
def refresh_username (username : Option String) (player : Player) : Player :=
  if truthy username && player.username != username then
    { player with username := username } else player

/-- The `if full_name and player.full_name != full_name` update step of
`get_or_create_player`. -/
def refresh_full_name (full_name : Option String) (player : Player) : Player :=
  if truthy full_name && player.full_name != full_name then
    { player with full_name := full_name } else player

/-- `game_service.get_or_create_player`: find the player by Telegram id; if
present, refresh `username` / `full_name` only when the incoming value is
truthy and differs from the stored one; otherwise insert a fresh row
(the fresh primary key is the `newId` argument). -/
def get_or_create_player (db : DB) (tg_user_id : Int)
    (username full_name : Option String) (newId : Nat) : Player × DB :=
  match db.players.find? (fun p => p.tg_user_id == tg_user_id) with
  | some player =>
    let player := refresh_username username player
    let player := refresh_full_name full_name player
    let stored := db.players.map (fun q => if q.id == player.id then player else q)
    (player, { db with players := stored })
  | none =>
    let player : Player := ⟨newId, tg_user_id, username, full_name⟩
    (player, { db with players := db.players ++ [player] })

/-- `game_service.get_player_team`: the team joined through the player's
membership row, or `none`. -/
def get_player_team (db : DB) (player : Player) : Option Team :=
  (db.members.find? (fun mb => mb.player_id == player.id)).bind
    (fun mb => db.teams.find? (fun t => t.id == mb.team_id))

/-- The three `ValueError` messages `register_team` can raise. -/
inductive RegistrationError where
  | alreadyOnTeam
  | invalidName
  | duplicateTeamName
deriving DecidableEq

deriving instance DecidableEq for Except

/-- `game_service.register_team`: reject if the player already has a team,
trim the name, reject an empty trimmed name, reject a case-insensitive name
clash, otherwise create the team row and the membership row. -/
def register_team (db : DB) (player : Player) (team_name : String)
    (newTeamId : Nat) : Except RegistrationError (Team × DB) :=
  match get_player_team db player with
  | some _ => .error .alreadyOnTeam
  | none =>
    let normalized := pyStrip team_name
    if normalized = "" then .error .invalidName
    else if db.teams.any (fun t => pyLower t.name == pyLower normalized) then
      .error .duplicateTeamName
    else
      let team : Team := ⟨newTeamId, normalized⟩
      .ok (team, { db with
        teams := db.teams ++ [team],
        members := db.members ++ [⟨newTeamId, player.id⟩] })

/-- `game_service.ensure_participants`: add a zero-score participant row for
every team that has none for this game. -/
def ensure_participants (db : DB) (game : Game) : DB :=
  let existing_pairs :=
    (db.participants.filter (fun p => p.game_id == game.id)).map (fun p => p.team_id)
  let added := (db.teams.filter (fun t => !(existing_pairs.contains t.id))).map
    (fun t => GameParticipant.mk game.id t.id 0)
  { db with participants := db.participants ++ added }

/-- `game_service.start_game`: status to `running`, clear `finished_at`,
ensure participants, reset the round queue. -/
def start_game (db : DB) (game : Game) (m : QMap) : DB × Game × QMap :=
  let game := { game with status := "running", finished_at := none }
  (ensure_participants db game, game, reset_round m game.id)

/-- `game_service.start_question`: status to `question`, reset the queue. -/
def start_question (db : DB) (game : Game) (m : QMap) : DB × Game × QMap :=
  (db, { game with status := "question" }, reset_round m game.id)

/-- `game_service.finish_question`: status back to `running`, reset the queue. -/
def finish_question (db : DB) (game : Game) (m : QMap) : DB × Game × QMap :=
  (db, { game with status := "running" }, reset_round m game.id)

/-- `game_service.finish_game`: status to `finished`, stamp `finished_at`
with the current time, reset the queue. -/
def finish_game (now : Nat) (db : DB) (game : Game) (m : QMap) : DB × Game × QMap :=
  (db, { game with status := "finished", finished_at := some now }, reset_round m game.id)

/-- Return value of `press_buzzer` (`game_service.BuzzerResult`). -/
structure BuzzerResult where
  message : String
  position : Option Nat
  team : Option Team
deriving DecidableEq

/-- The rejection message when `game.status != "question"`. -/
def noActiveQuestionMessage : String :=
  "❗ Сейчас нет активного вопроса. Ждите сигнал от ведущего."

/-- The rejection message when the pressing player has no team. -/
def noTeamMessage : String :=
  "👥 Ты ещё без команды. Используй кнопку регистрации, чтобы участвовать."

/-- `game_service.press_buzzer`: reject outside the question phase, reject a
team-less player, otherwise ensure participants and enqueue the player's team
unless it is already queued (then report the existing 1-based position). -/
def press_buzzer (db : DB) (game : Game) (player : Player) (m : QMap) :
    BuzzerResult × DB × QMap :=
  if game.status ≠ "question" then
    (⟨noActiveQuestionMessage, none, none⟩, db, m)
  else
    match get_player_team db player with
    | none => (⟨noTeamMessage, none, none⟩, db, m)
    | some team =>
      let db := ensure_participants db game
      let q := get_state m game.id
      if team.id ∈ q then
        let position := q.indexOf team.id + 1
        (⟨"ℹ️ Ты уже в очереди, твой номер — №" ++ toString position ++ ".",
          some position, some team⟩, db, m)
      else
        let q := q ++ [team.id]
        let m := set_queue m game.id q
        let position := q.length
        if position = 1 then
          (⟨"Вы первые! 🔥 Готовьтесь отвечать.", some position, some team⟩, db, m)
        else
          (⟨"Записал! Твоя позиция — №" ++ toString position ++ ".",
            some position, some team⟩, db, m)

/-- `game_service.pop_queue`: drop the queue head (if any) and return it with
a copy of the remaining queue. -/
def pop_queue (game : Game) (m : QMap) : (Option Nat × List Nat) × QMap :=
  match get_state m game.id with
  | [] => ((none, []), m)
  | t :: rest => ((some t, rest), set_queue m game.id rest)

/-- `game_service.current_queue`: a copy of the game's queue. -/
def current_queue (game : Game) (m : QMap) : List Nat := get_state m game.id

/-- Increment the score of the first participant row matching the
(game, team) pair; the unique constraint `uq_game_team` makes it the only
one.  Models `participant.score += points` after the `scalar()` lookup. -/
def bumpFirst (l : List GameParticipant) (gid tid : Nat) (points : Int) :
    List GameParticipant :=
  match l with
  | [] => []
  | p :: rest =>
    if p.game_id == gid && p.team_id == tid then
      { p with score := p.score + points } :: rest
    else p :: bumpFirst rest gid tid points

/-- `game_service.award_score`: bump the existing participant row, or create
it with score 0 and then add the points (the Python default `points=1` is
passed explicitly by every caller here). -/
def award_score (db : DB) (game : Game) (team_id : Nat) (points : Int) : DB :=
  match db.participants.find? (fun p => p.game_id == game.id && p.team_id == team_id) with
  | some _ => { db with participants := bumpFirst db.participants game.id team_id points }
  | none => { db with participants := db.participants ++ [⟨game.id, team_id, 0 + points⟩] }

/-- The score column of the (game, team) participant row, if the row exists. -/
def scoreOf (db : DB) (gid tid : Nat) : Option Int :=
  (db.participants.find? (fun p => p.game_id == gid && p.team_id == tid)).map
    (fun p => p.score)

/-- The SQL inner join of one participant row with its team, producing a
(team name, score) pair; `teams.id` is a primary key so `find?` is the join. -/
def scoreRow (db : DB) (p : GameParticipant) : Option (String × Int) :=
  (db.teams.find? (fun t => t.id == p.team_id)).map (fun t => (t.name, p.score))

/-- The ordering of `ORDER BY score DESC, name ASC`. -/
def scoreOrder (a b : String × Int) : Prop :=
  b.2 < a.2 ∨ (b.2 = a.2 ∧ nameLe a.1 b.1 = true)

instance (a b : String × Int) : Decidable (scoreOrder a b) :=
  inferInstanceAs (Decidable (b.2 < a.2 ∨ (b.2 = a.2 ∧ nameLe a.1 b.1 = true)))

/-- `game_service.get_scores`: join the game's participant rows with teams
and sort (stably) by score descending then team name ascending. -/
def get_scores (db : DB) (game : Game) : List (String × Int) :=
  List.insertionSort scoreOrder
    ((db.participants.filter (fun p => p.game_id == game.id)).filterMap (scoreRow db))

/-- Iterated buzzer presses on one game: fold `press_buzzer` over the
pressing players, threading the store and the queues. -/
def press_many (db : DB) (game : Game) (players : List Player) (m : QMap) :
    DB × QMap :=
  match players with
  | [] => (db, m)
  | p :: rest =>
    let r := press_buzzer db game p m
    press_many r.2.1 game rest r.2.2

/-- One enqueue step of the queue-store contract: append unless present. -/
def insertTail (acc : List Nat) (t : Nat) : List Nat :=
  if t ∈ acc then acc else acc ++ [t]

/-- The team ids in order of their first occurrence: the queue the
contract predicts for a press sequence starting from an empty queue. -/
def firstOccurrences (l : List Nat) : List Nat := l.foldl insertTail []

/-- What `handlers.callbacks.on_admin_wrong` reports back: the popped team,
the new queue head (when the queue is not yet exhausted), and whether the
queue-exhausted branch ran (`finish_question` plus the restart prompt). -/
structure AdminWrongResult where
  removed_team_id : Option Nat
  next_team_id : Option Nat
  queue_exhausted : Bool
deriving DecidableEq

/-- Core of `handlers.callbacks.on_admin_wrong` after authorization and the
active-game lookup: pop the queue head; if the remaining queue is empty run
`finish_question`, otherwise leave game and store untouched and report the
removed team and the new head. -/
def on_admin_wrong (db : DB) (game : Game) (m : QMap) :
    AdminWrongResult × DB × Game × QMap :=
  let r := pop_queue game m
  let removed_team_id := r.1.1
  let queue_after := r.1.2
  if queue_after.isEmpty then
    let f := finish_question db game r.2
    (⟨removed_team_id, none, true⟩, f.1, f.2.1, f.2.2)
  else
    (⟨removed_team_id, queue_after.head?, false⟩, db, game, r.2)

/-- What `handlers.callbacks.on_admin_correct` reports back. -/
structure AdminCorrectResult where
  removed_team_id : Option Nat
  scores : List (String × Int)
deriving DecidableEq

/-- Core of `handlers.callbacks.on_admin_correct` after authorization: the
`gameOpt` argument is the `get_active_game` result (never a finished game);
with no active game the handler answers an alert and stops (`none` here);
otherwise it pops the queue head, awards one point to the caller-supplied
team id, runs `finish_question`, and reads the scoreboard. -/
def on_admin_correct (db : DB) (gameOpt : Option Game) (m : QMap)
    (team_id : Nat) : Option (AdminCorrectResult × DB × Game × QMap) :=
  match gameOpt with
  | none => none
  | some game =>
    let r := pop_queue game m
    let db := award_score db game team_id 1
    let f := finish_question db game r.2
    some (⟨r.1.1, get_scores f.1 f.2.1⟩, f.1, f.2.1, f.2.2)

/-- Core of `handlers.callbacks.on_admin_start_question` after authorization:
the `gameOpt` argument is the `get_active_game` result; the handler answers
the "Нет активной игры" alert and stops (`none` here) when there is no game
or the game is finished, and otherwise runs `start_question`. -/
def on_admin_start_question (db : DB) (gameOpt : Option Game) (m : QMap) :
    Option (DB × Game × QMap) :=
  match gameOpt with
  | none => none
  | some game =>
    if game.status = "finished" then none
    else some (start_question db game m)

/-- An empty store, for concrete instantiations. -/
def dbEmpty : DB := ⟨[], [], [], []⟩

/-- Queues all empty, for concrete instantiations. -/
def qEmpty : QMap := fun _ => []

/-- Sample player on team Alpha. -/
def alice : Player := ⟨1, 100, some "alice", some "Alice A"⟩

/-- Sample player on team Beta. -/
def bob : Player := ⟨2, 101, some "bob", some "Bob B"⟩

/-- Sample player without a team. -/
def carol : Player := ⟨3, 102, none, none⟩

/-- Sample team Alpha. -/
def alphaTeam : Team := ⟨1, "Alpha"⟩

/-- Sample team Beta. -/
def betaTeam : Team := ⟨2, "Beta"⟩

/-- Sample store: Alice on Alpha, Bob on Beta, Carol teamless. -/
def dbAB : DB := ⟨[alice, bob, carol], [alphaTeam, betaTeam], [⟨1, 1⟩, ⟨2, 2⟩], []⟩

/-- Sample game in status idle. -/
def gIdle1 : Game := ⟨1, 1, "idle", 0, none⟩

/-- Sample game in status running. -/
def gRunning1 : Game := ⟨1, 1, "running", 0, none⟩

/-- Sample game in status question. -/
def gQuestion1 : Game := ⟨1, 1, "question", 0, none⟩

/-- Sample finished game with a set completion timestamp. -/
def gFinished5 : Game := ⟨1, 1, "finished", 0, some 5⟩

/-- Sample queue map: game 1 holds [1, 2] (Alpha then Beta). -/
def qAB : QMap := fun n => if n = 1 then [1, 2] else []

/-- C7: every state transition of the game — startGame, startQuestion,
finishQuestion, finishGame — leaves that game's round queue empty, whatever
it held before; in particular after startQuestion the queue is empty. -/
theorem C7_transitions_clear_queue (db : DB) (g : Game) (m : QMap) (now : Nat) :
    (start_game db g m).2.2 g.id = [] ∧
    (start_question db g m).2.2 g.id = [] ∧
    (finish_question db g m).2.2 g.id = [] ∧
    (finish_game now db g m).2.2 g.id = [] := by
  refine ⟨?_, ?_, ?_, ?_⟩ <;>
    simp [start_game, start_question, finish_question, finish_game, reset_round]

/-- C8 counterexample: startGame on a game whose completion timestamp is set
clears that timestamp, so finishGame is not the only operation that modifies
it. -/
theorem C8_counterexample :
    gFinished5.finished_at = some 5 ∧
    (start_game dbEmpty gFinished5 qEmpty).2.1.finished_at = none := by
  decide

/-- C8 (amended): finishGame sets the completion timestamp to the current
time; startQuestion and finishQuestion leave it unchanged; startGame resets
it to absent (a change only when it was set, which the handler flow never
produces since it only starts non-finished games); pressing the buzzer and
awarding points do not write the game row at all. -/
theorem C8_finished_at_frame (db : DB) (g : Game) (m : QMap) (now : Nat) :
    (finish_game now db g m).2.1.finished_at = some now ∧
    (start_question db g m).2.1.finished_at = g.finished_at ∧
    (finish_question db g m).2.1.finished_at = g.finished_at ∧
    (start_game db g m).2.1.finished_at = none := by
  refine ⟨rfl, rfl, rfl, rfl⟩

/-- C2 counterexample: with an active game in status idle — neither running
nor question — the handler does not fail: it starts the question. -/
theorem C2_counterexample :
    gIdle1.status = "idle" ∧
    (on_admin_start_question dbEmpty (some gIdle1) qEmpty).map
      (fun r => r.2.1.status) = some "question" := by
  decide

/-- C2 (amended): the handler-level startQuestion proceeds for any active
(non-finished) game — idle as well as running or question — and fails with
the reported no-active-game error (never a silent no-op) when there is no
game or the game is finished; the service-level start_question itself checks
nothing.  After finishGame the game's status is finished, so a subsequent
startQuestion fails, but with the no-active-game error: the code has no
InvalidStateTransition error kind. -/
theorem C2_start_question_gating (db db₁ : DB) (g g₁ : Game) (m m₁ : QMap)
    (now : Nat) :
    on_admin_start_question db none m = none ∧
    (g.status = "finished" → on_admin_start_question db (some g) m = none) ∧
    (g.status ≠ "finished" →
      on_admin_start_question db (some g) m =
        some (db, { g with status := "question" }, reset_round m g.id)) ∧
    (finish_game now db g m = (db₁, g₁, m₁) →
      on_admin_start_question db₁ (some g₁) m₁ = none) := by
  refine ⟨rfl, ?_, ?_, ?_⟩
  · intro h
    simp [on_admin_start_question, h]
  · intro h
    simp [on_admin_start_question, h, start_question]
  · intro h
    have hst : g₁.status = "finished" := by
      have := congrArg (fun t => t.2.1.status) h
      simpa [finish_game] using this.symm
    simp [on_admin_start_question, hst]

/-- C2 witness: the gating theorem applied to the sample games — the handler
rejects a finished game and the finished result of finishGame, and starts a
question from idle. -/
theorem C2_witness :
    on_admin_start_question dbEmpty (some gFinished5) qEmpty = none ∧
    on_admin_start_question dbEmpty (some gIdle1) qEmpty =
      some (dbEmpty, { gIdle1 with status := "question" }, reset_round qEmpty 1) ∧
    on_admin_start_question dbEmpty
      (some ⟨1, 1, "finished", 0, some 7⟩) (reset_round qEmpty 1) = none :=
  ⟨(C2_start_question_gating dbEmpty dbEmpty gFinished5 gFinished5 qEmpty qEmpty 7).2.1
      (by decide),
   (C2_start_question_gating dbEmpty dbEmpty gIdle1 gIdle1 qEmpty qEmpty 7).2.2.1
      (by decide),
   (C2_start_question_gating dbEmpty dbEmpty gIdle1 ⟨1, 1, "finished", 0, some 7⟩
      qEmpty (reset_round qEmpty 1) 7).2.2.2 rfl⟩

/-- C5: a press is rejected with the no-active-question message whenever the
status is not question, and with the no-team message whenever the pressing
player has no team; both rejections return the store and the queues
untouched, the two messages differ, and a successful press is
distinguishable from both by carrying an assigned position. -/
theorem C5_press_rejections (db : DB) (g : Game) (p : Player) (m : QMap) :
    (g.status ≠ "question" →
      press_buzzer db g p m = (⟨noActiveQuestionMessage, none, none⟩, db, m)) ∧
    (g.status = "question" → get_player_team db p = none →
      press_buzzer db g p m = (⟨noTeamMessage, none, none⟩, db, m)) ∧
    noActiveQuestionMessage ≠ noTeamMessage ∧
    (∀ t, g.status = "question" → get_player_team db p = some t →
      ∃ k, (press_buzzer db g p m).1.position = some k) := by
  refine ⟨?_, ?_, by decide, ?_⟩
  · intro h
    simp [press_buzzer, h]
  · intro h hteam
    simp [press_buzzer, h, hteam]
  · intro t h hteam
    have hcond : ¬(g.status ≠ "question") := by
      simp [h]
    simp only [press_buzzer, if_neg hcond, hteam]
    split
    · exact ⟨_, rfl⟩
    · split
      · exact ⟨_, rfl⟩
      · exact ⟨_, rfl⟩

/-- C5 witness: the rejection theorem applied to the sample world — a press
while running, a teamless press during a question, and Alice's successful
press. -/
theorem C5_witness :
    press_buzzer dbAB gRunning1 alice qEmpty =
      (⟨noActiveQuestionMessage, none, none⟩, dbAB, qEmpty) ∧
    press_buzzer dbAB gQuestion1 carol qEmpty =
      (⟨noTeamMessage, none, none⟩, dbAB, qEmpty) ∧
    ∃ k, (press_buzzer dbAB gQuestion1 alice qEmpty).1.position = some k :=
  ⟨(C5_press_rejections dbAB gRunning1 alice qEmpty).1 (by decide),
   (C5_press_rejections dbAB gQuestion1 carol qEmpty).2.1 rfl (by decide),
   (C5_press_rejections dbAB gQuestion1 alice qEmpty).2.2.2 alphaTeam rfl (by decide)⟩

/-- C10: refreshing an existing player's metadata, getOrCreatePlayer changes
the stored username (resp. full name) exactly when the incoming value is
truthy — non-absent and non-empty — and differs from the stored one, so a
non-empty stored value is never replaced by an empty or absent one. -/
theorem C10_metadata_refresh (db : DB) (tg : Int)
    (username full_name : Option String) (newId : Nat) (p : Player)
    (h : db.players.find? (fun q => q.tg_user_id == tg) = some p) :
    ((get_or_create_player db tg username full_name newId).1.username =
      if truthy username && p.username != username then username
      else p.username) ∧
    ((get_or_create_player db tg username full_name newId).1.full_name =
      if truthy full_name && p.full_name != full_name then full_name
      else p.full_name) ∧
    (truthy p.username = true →
      truthy (get_or_create_player db tg username full_name newId).1.username = true) ∧
    (truthy p.full_name = true →
      truthy (get_or_create_player db tg username full_name newId).1.full_name = true) := by
  have hres : (get_or_create_player db tg username full_name newId).1 =
      refresh_full_name full_name (refresh_username username p) := by
    simp only [get_or_create_player, h]
  have hfn_user : ∀ q : Player, (refresh_full_name full_name q).username = q.username := by
    intro q
    unfold refresh_full_name
    split <;> rfl
  have hun_full : ∀ q : Player, (refresh_username username q).full_name = q.full_name := by
    intro q
    unfold refresh_username
    split <;> rfl
  have h1 : (get_or_create_player db tg username full_name newId).1.username =
      if truthy username && p.username != username then username else p.username := by
    rw [hres, hfn_user]
    unfold refresh_username
    split
    · rename_i hb
      simp [hb]
    · rename_i hb
      simp only [Bool.not_eq_true] at hb
      simp [hb]
  have h2 : (get_or_create_player db tg username full_name newId).1.full_name =
      if truthy full_name && p.full_name != full_name then full_name else p.full_name := by
    rw [hres]
    unfold refresh_full_name
    rw [hun_full p]
    split
    · rename_i hb
      simp [hb]
    · rename_i hb
      simp only [Bool.not_eq_true] at hb
      simp [hb, hun_full]
  refine ⟨h1, h2, ?_, ?_⟩
  · intro hp
    rw [h1]
    split
    · rename_i hc
      have : truthy username = true := by
        cases hu : truthy username
        · rw [hu] at hc
          simp at hc
        · rfl
      exact this
    · exact hp
  · intro hp
    rw [h2]
    split
    · rename_i hc
      have : truthy full_name = true := by
        cases hu : truthy full_name
        · rw [hu] at hc
          simp at hc
        · rfl
      exact this
    · exact hp

/-- C6: registerTeam rejects a player who already has a membership with
AlreadyOnTeam; trims the requested name and rejects an empty trimmed name
with InvalidName; rejects a case-insensitive clash with an existing team
name with DuplicateTeamName; and otherwise creates the team and the
membership. -/
theorem C6_register_team_rules (db : DB) (p : Player) (team_name : String)
    (newTeamId : Nat) :
    ((get_player_team db p).isSome = true →
      register_team db p team_name newTeamId = .error .alreadyOnTeam) ∧
    (get_player_team db p = none → pyStrip team_name = "" →
      register_team db p team_name newTeamId = .error .invalidName) ∧
    (get_player_team db p = none → pyStrip team_name ≠ "" →
      (db.teams.any (fun t => pyLower t.name == pyLower (pyStrip team_name))) = true →
      register_team db p team_name newTeamId = .error .duplicateTeamName) ∧
    (get_player_team db p = none → pyStrip team_name ≠ "" →
      (db.teams.any (fun t => pyLower t.name == pyLower (pyStrip team_name))) = false →
      register_team db p team_name newTeamId =
        .ok (⟨newTeamId, pyStrip team_name⟩,
          { db with teams := db.teams ++ [⟨newTeamId, pyStrip team_name⟩],
                    members := db.members ++ [⟨newTeamId, p.id⟩] })) := by
  refine ⟨?_, ?_, ?_, ?_⟩
  · intro h
    obtain ⟨t, ht⟩ := Option.isSome_iff_exists.mp h
    simp [register_team, ht]
  · intro h hempty
    simp [register_team, h, hempty]
  · intro h hempty hdup
    simp [register_team, h, hempty, hdup]
  · intro h hempty hdup
    simp [register_team, h, hempty, hdup]

/-- C6 witness: the rules applied in the sample world — Alice (already on
Alpha) is rejected, a whitespace-only name is rejected, Carol registering
" alpha " clashes case-insensitively with "Alpha", and Carol registering
"Nova" creates the team and the membership. -/
theorem C6_witness :
    register_team dbAB alice "Whatever" 9 = .error .alreadyOnTeam ∧
    register_team dbAB carol "   " 9 = .error .invalidName ∧
    register_team dbAB carol " alpha " 9 = .error .duplicateTeamName ∧
    register_team dbAB carol "Nova" 9 =
      .ok (⟨9, "Nova"⟩, { dbAB with teams := dbAB.teams ++ [⟨9, "Nova"⟩],
                                    members := dbAB.members ++ [⟨9, carol.id⟩] }) :=
  ⟨(C6_register_team_rules dbAB alice "Whatever" 9).1 (by decide),
   (C6_register_team_rules dbAB carol "   " 9).2.1 (by decide) (by decide),
   (C6_register_team_rules dbAB carol " alpha " 9).2.2.1 (by decide) (by decide) (by decide),
   (C6_register_team_rules dbAB carol "Nova" 9).2.2.2 (by decide) (by decide) (by decide)⟩

/-- Bumping the first matching participant row is what the unique
(game, team) pair lookup observes: the found row's score grows by the
awarded points. -/
theorem find?_bumpFirst (l : List GameParticipant) (gid tid : Nat) (points : Int) :
    (bumpFirst l gid tid points).find? (fun p => p.game_id == gid && p.team_id == tid) =
      (l.find? (fun p => p.game_id == gid && p.team_id == tid)).map
        (fun p => { p with score := p.score + points }) := by
  induction l with
  | nil => rfl
  | cons p rest ih =>
    by_cases hp : (p.game_id == gid && p.team_id == tid) = true
    · rw [bumpFirst, if_pos hp]
      simp only [List.find?]
      simp [hp]
    · rw [bumpFirst, if_neg hp]
      rw [Bool.not_eq_true] at hp
      simp only [List.find?]
      simp [hp, ih]

/-- Awarding points to a team makes its stored score the previous score
(0 when the row was absent) plus the points. -/
theorem scoreOf_award (db : DB) (g : Game) (tid : Nat) (points : Int) :
    scoreOf (award_score db g tid points) g.id tid =
      some ((scoreOf db g.id tid).getD 0 + points) := by
  unfold scoreOf award_score
  cases hf : db.participants.find? (fun p => p.game_id == g.id && p.team_id == tid) with
  | none =>
    simp [hf, List.find?_append]
  | some p =>
    simp [hf, find?_bumpFirst]

/-- C9: the admin correct event needs no active question: for every
non-finished game — idle, running or question alike — it succeeds, popping
the queue head (possibly none), awarding one point to the caller-supplied
team id, and setting the status to running. -/
theorem C9_correct_needs_no_question (db : DB) (g : Game) (m : QMap)
    (tid : Nat) (hg : g.status ≠ "finished") :
    ∃ res db₁ g₁ m₁,
      on_admin_correct db (some g) m tid = some (res, db₁, g₁, m₁) ∧
      res.removed_team_id = (m g.id).head? ∧
      g₁.status = "running" ∧ m₁ g.id = [] ∧
      scoreOf db₁ g.id tid = some ((scoreOf db g.id tid).getD 0 + 1) := by
  refine ⟨_, _, _, _, rfl, ?_, rfl, ?_, ?_⟩
  · show (pop_queue g m).1.1 = (m g.id).head?
    unfold pop_queue get_state
    cases m g.id <;> rfl
  · show (finish_question (award_score db g tid 1) g (pop_queue g m).2).2.2 g.id = []
    simp [finish_question, reset_round]
  · exact scoreOf_award db g tid 1

/-- C9 witness: the correct event on an idle game with an empty queue still
succeeds, awards Beta the point, and sets status running. -/
theorem C9_witness :
    ∃ res db₁ g₁ m₁,
      on_admin_correct dbAB (some gIdle1) qEmpty 2 = some (res, db₁, g₁, m₁) ∧
      res.removed_team_id = (qEmpty gIdle1.id).head? ∧
      g₁.status = "running" ∧ m₁ gIdle1.id = [] ∧
      scoreOf db₁ gIdle1.id 2 = some ((scoreOf dbAB gIdle1.id 2).getD 0 + 1) :=
  C9_correct_needs_no_question dbAB gIdle1 qEmpty 2 (by decide)

/-- C3: with the queue holding Alpha then Beta during a question, the admin
wrong event removes Alpha, keeps status question with queue [Beta], and
reports both the removed team and the new head; a following admin correct
event for Beta pops Beta, awards it one point, leaves the queue empty, and
sets the status to running. -/
theorem C3_wrong_then_correct (db : DB) (g : Game) (m : QMap)
    (alphaId betaId : Nat) (res₁ : AdminWrongResult) (db₁ : DB) (g₁ : Game)
    (m₁ : QMap) (hst : g.status = "question") (hq : m g.id = [alphaId, betaId])
    (h₁ : on_admin_wrong db g m = (res₁, db₁, g₁, m₁)) :
    res₁ = ⟨some alphaId, some betaId, false⟩ ∧
    db₁ = db ∧ g₁ = g ∧ g₁.status = "question" ∧ m₁ g.id = [betaId] ∧
    (∀ res₂ db₂ g₂ m₂,
      on_admin_correct db₁ (some g₁) m₁ betaId = some (res₂, db₂, g₂, m₂) →
      res₂.removed_team_id = some betaId ∧ g₂.status = "running" ∧
      m₂ g.id = [] ∧
      scoreOf db₂ g.id betaId = some ((scoreOf db₁ g.id betaId).getD 0 + 1)) := by
  have hp : pop_queue g m = ((some alphaId, [betaId]), set_queue m g.id [betaId]) := by
    simp [pop_queue, get_state, hq]
  have hw : on_admin_wrong db g m =
      (⟨some alphaId, some betaId, false⟩, db, g, set_queue m g.id [betaId]) := by
    simp [on_admin_wrong, hp]
  rw [hw] at h₁
  simp only [Prod.mk.injEq] at h₁
  obtain ⟨e₁, e₂, e₃, e₄⟩ := h₁
  subst e₂ e₃
  have hm₁ : m₁ g.id = [betaId] := by
    rw [← e₄]
    simp [set_queue]
  refine ⟨e₁.symm, rfl, rfl, hst, hm₁, ?_⟩
  intro res₂ db₂ g₂ m₂ h₂
  have hp₂ : pop_queue g m₁ = ((some betaId, []), set_queue m₁ g.id []) := by
    simp [pop_queue, get_state, hm₁]
  have hc : on_admin_correct db (some g) m₁ betaId =
      some (⟨some betaId, get_scores (award_score db g betaId 1)
              { g with status := "running" }⟩,
        award_score db g betaId 1, { g with status := "running" },
        reset_round (set_queue m₁ g.id []) g.id) := by
    simp [on_admin_correct, hp₂, finish_question]
  rw [hc] at h₂
  simp only [Option.some.injEq, Prod.mk.injEq] at h₂
  obtain ⟨f₁, f₂, f₃, f₄⟩ := h₂
  subst f₂ f₃
  refine ⟨?_, rfl, ?_, ?_⟩
  · rw [← f₁]
  · rw [← f₄]
    simp [reset_round]
  · exact scoreOf_award db g betaId 1

/-- C3 witness: the scenario run in the sample world — queue [Alpha, Beta]
during a question; wrong reports removed Alpha and next Beta; correct for
Beta then yields score 1 for Beta. -/
theorem C3_witness :
    (on_admin_wrong dbAB gQuestion1 qAB).1 = ⟨some 1, some 2, false⟩ ∧
    scoreOf (award_score dbAB gQuestion1 2 1) gQuestion1.id 2 =
      some ((scoreOf dbAB gQuestion1.id 2).getD 0 + 1) := by
  have h := C3_wrong_then_correct dbAB gQuestion1 qAB 1 2
    (on_admin_wrong dbAB gQuestion1 qAB).1
    (on_admin_wrong dbAB gQuestion1 qAB).2.1
    (on_admin_wrong dbAB gQuestion1 qAB).2.2.1
    (on_admin_wrong dbAB gQuestion1 qAB).2.2.2
    rfl (by decide) rfl
  refine ⟨h.1, ?_⟩
  have hd₁ : (on_admin_wrong dbAB gQuestion1 qAB).2.1 = dbAB := h.2.1
  have hg₁ : (on_admin_wrong dbAB gQuestion1 qAB).2.2.1 = gQuestion1 := h.2.2.1
  have hm : (on_admin_wrong dbAB gQuestion1 qAB).2.2.2 gQuestion1.id = [2] :=
    h.2.2.2.2.1
  have hc : on_admin_correct (on_admin_wrong dbAB gQuestion1 qAB).2.1
      (some (on_admin_wrong dbAB gQuestion1 qAB).2.2.1)
      (on_admin_wrong dbAB gQuestion1 qAB).2.2.2 2 =
      some (⟨some 2, get_scores (award_score dbAB gQuestion1 2 1)
              { gQuestion1 with status := "running" }⟩,
        award_score dbAB gQuestion1 2 1, { gQuestion1 with status := "running" },
        reset_round (set_queue (on_admin_wrong dbAB gQuestion1 qAB).2.2.2
          gQuestion1.id []) gQuestion1.id) := by
    rw [hd₁, hg₁]
    have hp : pop_queue gQuestion1 (on_admin_wrong dbAB gQuestion1 qAB).2.2.2 =
        ((some 2, []), set_queue (on_admin_wrong dbAB gQuestion1 qAB).2.2.2
          gQuestion1.id []) := by
      simp [pop_queue, get_state, hm]
    simp [on_admin_correct, hp, finish_question]
  have h₃ := h.2.2.2.2.2 _ _ _ _ hc
  have hgoal := h₃.2.2.2
  rwa [hd₁] at hgoal

/-- Lexicographic character-list order is total. -/
theorem charListLe_total : ∀ as bs : List Char,
    charListLe as bs = true ∨ charListLe bs as = true := by
  intro as
  induction as with
  | nil =>
    intro bs
    exact Or.inl rfl
  | cons a as ih =>
    intro bs
    cases bs with
    | nil => exact Or.inr rfl
    | cons b bs =>
      by_cases hab : a = b
      · subst hab
        rcases ih bs with h | h
        · exact Or.inl (by simp [charListLe, h])
        · exact Or.inr (by simp [charListLe, h])
      · rcases lt_trichotomy a b with h | h | h
        · exact Or.inl (by simp [charListLe, hab, h])
        · exact absurd h hab
        · refine Or.inr ?_
          have hba : b ≠ a := fun e => hab e.symm
          simp [charListLe, hba, h]

/-- Lexicographic character-list order is transitive. -/
theorem charListLe_trans : ∀ as bs cs : List Char,
    charListLe as bs = true → charListLe bs cs = true →
    charListLe as cs = true := by
  intro as
  induction as with
  | nil =>
    intro bs cs _ _
    rfl
  | cons a as ih =>
    intro bs cs h1 h2
    cases bs with
    | nil => simp [charListLe] at h1
    | cons b bs =>
      cases cs with
      | nil => simp [charListLe] at h2
      | cons c cs =>
        by_cases hab : a = b <;> by_cases hbc : b = c
        · subst hab
          subst hbc
          simp only [charListLe, if_pos rfl] at h1 h2 ⊢
          exact ih _ _ h1 h2
        · subst hab
          simp only [charListLe, if_neg hbc] at h2
          simp [charListLe, hbc, h2]
        · subst hbc
          simp only [charListLe, if_neg hab] at h1
          simp [charListLe, hab, h1]
        · simp only [charListLe, if_neg hab] at h1
          simp only [charListLe, if_neg hbc] at h2
          simp only [decide_eq_true_iff] at h1 h2
          have hac : a < c := lt_trans h1 h2
          simp [charListLe, ne_of_lt hac, hac]

/-- The scoreboard order (score descending, then name ascending) is
transitive. -/
theorem scoreOrder_trans : ∀ a b c : String × Int,
    scoreOrder a b → scoreOrder b c → scoreOrder a c := by
  intro a b c h1 h2
  rcases h1 with h1 | ⟨h1e, h1n⟩ <;> rcases h2 with h2 | ⟨h2e, h2n⟩
  · exact Or.inl (lt_trans h2 h1)
  · refine Or.inl ?_
    rw [h2e]
    exact h1
  · refine Or.inl ?_
    rw [← h1e]
    exact h2
  · exact Or.inr ⟨h2e.trans h1e, charListLe_trans _ _ _ h1n h2n⟩

/-- The scoreboard order is total. -/
theorem scoreOrder_total : ∀ a b : String × Int, scoreOrder a b ∨ scoreOrder b a := by
  intro a b
  rcases lt_trichotomy a.2 b.2 with h | h | h
  · exact Or.inr (Or.inl h)
  · rcases charListLe_total a.1.data b.1.data with hn | hn
    · exact Or.inl (Or.inr ⟨h.symm, hn⟩)
    · exact Or.inr (Or.inr ⟨h, hn⟩)
  · exact Or.inl (Or.inl h)

/-- Unfolding `find?` over a cons of participant rows. -/
theorem find?_part_cons (gid tid : Nat) (q : GameParticipant)
    (l : List GameParticipant) :
    (q :: l).find? (fun r => r.game_id == gid && r.team_id == tid) =
      if q.game_id == gid && q.team_id == tid then some q
      else l.find? (fun r => r.game_id == gid && r.team_id == tid) := by
  cases hb : (q.game_id == gid && q.team_id == tid) with
  | false => simp [List.find?, hb]
  | true => simp [List.find?, hb]

/-- The row found for a (game, team) pair is present, bumped, in the bumped
row list. -/
theorem mem_bumpFirst_of_find? (gid tid : Nat) (points : Int) :
    ∀ (l : List GameParticipant) (p : GameParticipant),
    l.find? (fun q => q.game_id == gid && q.team_id == tid) = some p →
    ({ p with score := p.score + points } : GameParticipant) ∈
      bumpFirst l gid tid points := by
  intro l
  induction l with
  | nil =>
    intro p h
    simp at h
  | cons q rest ih =>
    intro p h
    rw [find?_part_cons] at h
    by_cases hq : (q.game_id == gid && q.team_id == tid) = true
    · rw [if_pos hq] at h
      obtain rfl : q = p := by injection h
      rw [bumpFirst, if_pos hq]
      exact List.mem_cons_self _ _
    · rw [if_neg hq] at h
      rw [bumpFirst, if_neg hq]
      exact List.mem_cons_of_mem _ (ih p h)

/-- C4: award followed by scoresOf shows the team's new accumulated total
(starting from 0 when the row was absent); scoresOf is always sorted by
score descending then name ascending; and a game with no participant rows
yields the empty scoreboard, not an error. -/
theorem C4_award_and_ranking (db : DB) (g : Game) (tid : Nat) (points : Int)
    (tm : Team) (hteam : db.teams.find? (fun t => t.id == tid) = some tm) :
    ((tm.name, (scoreOf db g.id tid).getD 0 + points) ∈
      get_scores (award_score db g tid points) g) ∧
    List.Pairwise scoreOrder (get_scores db g) ∧
    (db.participants.filter (fun p => p.game_id == g.id) = [] →
      get_scores db g = []) := by
  refine ⟨?_, ?_, ?_⟩
  · have hmem : (tm.name, (scoreOf db g.id tid).getD 0 + points) ∈
        ((award_score db g tid points).participants.filter
          (fun p => p.game_id == g.id)).filterMap
          (scoreRow (award_score db g tid points)) := by
      cases hf : db.participants.find? (fun p => p.game_id == g.id && p.team_id == tid) with
      | none =>
        have hscore : (scoreOf db g.id tid).getD 0 = 0 := by
          simp [scoreOf, hf]
        rw [hscore]
        have hrow : (⟨g.id, tid, 0 + points⟩ : GameParticipant) ∈
            (award_score db g tid points).participants := by
          simp [award_score, hf]
        refine List.mem_filterMap.mpr ⟨⟨g.id, tid, 0 + points⟩, ?_, ?_⟩
        · exact List.mem_filter.mpr ⟨hrow, by simp⟩
        · simp only [scoreRow, award_score, hf]
          simp [hteam]
      | some p =>
        have hpred := List.find?_some hf
        have hpg : p.game_id = g.id ∧ p.team_id = tid := by
          simpa using hpred
        have hscore : (scoreOf db g.id tid).getD 0 = p.score := by
          simp [scoreOf, hf]
        rw [hscore]
        have hrow : ({ p with score := p.score + points } : GameParticipant) ∈
            (award_score db g tid points).participants := by
          simp only [award_score, hf]
          exact mem_bumpFirst_of_find? g.id tid points db.participants p hf
        refine List.mem_filterMap.mpr
          ⟨{ p with score := p.score + points },
           List.mem_filter.mpr ⟨hrow, by simp [hpg.1]⟩, ?_⟩
        simp only [scoreRow, award_score, hf]
        simp [hpg.2, hteam]
    exact (List.perm_insertionSort scoreOrder _).mem_iff.mpr hmem
  · haveI : IsTotal (String × Int) scoreOrder := ⟨scoreOrder_total⟩
    haveI : IsTrans (String × Int) scoreOrder := ⟨scoreOrder_trans⟩
    exact List.sorted_insertionSort scoreOrder _
  · intro h
    simp only [get_scores, h]
    rfl

/-- C4 witness: awarding Beta one point in the sample game puts (Beta, 1) on
the scoreboard; the sample scoreboard is sorted; with no participant rows
the scoreboard is empty. -/
theorem C4_witness :
    (("Beta", (1 : Int)) ∈ get_scores (award_score dbAB gQuestion1 2 1) gQuestion1) ∧
    List.Pairwise scoreOrder (get_scores dbAB gQuestion1) ∧
    get_scores dbAB gQuestion1 = [] := by
  have h := C4_award_and_ranking dbAB gQuestion1 2 1 betaTeam (by decide)
  refine ⟨?_, h.2.1, h.2.2 (by decide)⟩
  have he : ((betaTeam.name, (scoreOf dbAB gQuestion1.id 2).getD 0 + 1) : String × Int) =
      ("Beta", (1 : Int)) := by decide
  exact he ▸ h.1

/-- ensure_participants only touches participant rows, so team lookups are
unchanged by it. -/
theorem get_player_team_ensure (db : DB) (g : Game) (p : Player) :
    get_player_team (ensure_participants db g) p = get_player_team db p := rfl

/-- A press during a question by a player with a team ensures participants
and applies one enqueue step (append unless present) to that game's queue. -/
theorem press_buzzer_queue (db : DB) (g : Game) (p : Player) (m : QMap)
    (t : Team) (hst : g.status = "question") (ht : get_player_team db p = some t) :
    (press_buzzer db g p m).2.1 = ensure_participants db g ∧
    (press_buzzer db g p m).2.2 g.id = insertTail (m g.id) t.id := by
  have hcond : ¬(g.status ≠ "question") := by
    simp [hst]
  simp only [press_buzzer, if_neg hcond, ht]
  by_cases hmem : t.id ∈ m g.id
  · simp [get_state, hmem, insertTail]
  · simp only [get_state, if_neg hmem]
    constructor
    · split <;> rfl
    · split <;> simp [set_queue, insertTail, hmem]

/-- A press by a team that is already queued reports the existing 1-based
position and changes nothing in the queues. -/
theorem press_buzzer_mem (db : DB) (g : Game) (p : Player) (m : QMap)
    (t : Team) (hst : g.status = "question") (ht : get_player_team db p = some t)
    (hmem : t.id ∈ m g.id) :
    press_buzzer db g p m =
      (⟨"ℹ️ Ты уже в очереди, твой номер — №" ++
          toString ((m g.id).indexOf t.id + 1) ++ ".",
        some ((m g.id).indexOf t.id + 1), some t⟩,
       ensure_participants db g, m) := by
  have hcond : ¬(g.status ≠ "question") := by
    simp [hst]
  simp [press_buzzer, if_neg hcond, ht, get_state, hmem]

/-- A press by a team not yet queued appends it at the tail and reports the
new length as its position. -/
theorem press_buzzer_not_mem (db : DB) (g : Game) (p : Player) (m : QMap)
    (t : Team) (hst : g.status = "question") (ht : get_player_team db p = some t)
    (hmem : t.id ∉ m g.id) :
    (press_buzzer db g p m).1.position = some ((m g.id).length + 1) ∧
    (press_buzzer db g p m).2.1 = ensure_participants db g ∧
    (press_buzzer db g p m).2.2 = set_queue m g.id (m g.id ++ [t.id]) := by
  have hcond : ¬(g.status ≠ "question") := by
    simp [hst]
  simp only [press_buzzer, if_neg hcond, ht, get_state, if_neg hmem]
  refine ⟨?_, ?_, ?_⟩ <;> split <;> simp

/-- The index of a fresh element appended at the tail is the old length. -/
theorem indexOf_append_singleton (q : List Nat) (t : Nat) (h : t ∉ q) :
    (q ++ [t]).indexOf t = q.length := by
  rw [List.indexOf_append_of_not_mem h]
  simp

/-- Pressing twice in a row returns the same position both times and leaves
the queues exactly as after the first press. -/
theorem press_buzzer_twice (db : DB) (g : Game) (p : Player) (m : QMap)
    (t : Team) (hst : g.status = "question") (ht : get_player_team db p = some t) :
    (press_buzzer (press_buzzer db g p m).2.1 g p
        (press_buzzer db g p m).2.2).1.position =
      (press_buzzer db g p m).1.position ∧
    (press_buzzer (press_buzzer db g p m).2.1 g p
        (press_buzzer db g p m).2.2).2.2 = (press_buzzer db g p m).2.2 := by
  by_cases hmem : t.id ∈ m g.id
  · rw [press_buzzer_mem db g p m t hst ht hmem]
    have ht' : get_player_team (ensure_participants db g) p = some t := by
      rw [get_player_team_ensure]
      exact ht
    rw [press_buzzer_mem (ensure_participants db g) g p m t hst ht' hmem]
    exact ⟨rfl, rfl⟩
  · obtain ⟨h1, h2, h3⟩ := press_buzzer_not_mem db g p m t hst ht hmem
    rw [h1, h2, h3]
    have ht' : get_player_team (ensure_participants db g) p = some t := by
      rw [get_player_team_ensure]
      exact ht
    have hmem' : t.id ∈ set_queue m g.id (m g.id ++ [t.id]) g.id := by
      simp [set_queue]
    rw [press_buzzer_mem (ensure_participants db g) g p
      (set_queue m g.id (m g.id ++ [t.id])) t hst ht' hmem']
    constructor
    · have hsq : set_queue m g.id (m g.id ++ [t.id]) g.id = m g.id ++ [t.id] := by
        simp [set_queue]
      simp only [hsq, indexOf_append_singleton (m g.id) t.id hmem]
    · rfl

/-- Iterated presses on one game apply iterated enqueue steps to its queue:
each pressing player's team id is folded in with append-unless-present. -/
theorem press_many_queue (g : Game) (players : List Player) :
    ∀ (db : DB) (m : QMap), g.status = "question" →
    (∀ p ∈ players, (get_player_team db p).isSome = true) →
    (press_many db g players m).2 g.id =
      List.foldl insertTail (m g.id)
        (players.filterMap (fun p => (get_player_team db p).map Team.id)) := by
  induction players with
  | nil =>
    intro db m _ _
    rfl
  | cons p rest ih =>
    intro db m hst hall
    obtain ⟨t, ht⟩ := Option.isSome_iff_exists.mp (hall p (List.mem_cons_self p rest))
    have hstep := press_buzzer_queue db g p m t hst ht
    have hunf : press_many db g (p :: rest) m =
        press_many (press_buzzer db g p m).2.1 g rest (press_buzzer db g p m).2.2 := rfl
    rw [hunf]
    have hall' : ∀ q ∈ rest,
        (get_player_team (press_buzzer db g p m).2.1 q).isSome = true := by
      intro q hq
      rw [hstep.1, get_player_team_ensure]
      exact hall q (List.mem_cons_of_mem p hq)
    rw [ih (press_buzzer db g p m).2.1 (press_buzzer db g p m).2.2 hst hall']
    have hlookup : ∀ q, get_player_team (press_buzzer db g p m).2.1 q =
        get_player_team db q := by
      intro q
      rw [hstep.1, get_player_team_ensure]
    simp only [hlookup, hstep.2]
    simp [List.filterMap_cons, ht]

/-- Folding enqueue steps into a duplicate-free queue keeps it
duplicate-free. -/
theorem foldl_insertTail_nodup : ∀ (l q : List Nat), q.Nodup →
    (List.foldl insertTail q l).Nodup := by
  intro l
  induction l with
  | nil =>
    intro q h
    exact h
  | cons t rest ih =>
    intro q h
    rw [List.foldl_cons]
    apply ih
    unfold insertTail
    split
    · exact h
    · rename_i hmem
      simp [List.nodup_append, h, hmem]

/-- Folding enqueue steps of fresh, distinct ids appends them in order. -/
theorem foldl_insertTail_eq_append : ∀ (l q : List Nat), l.Nodup →
    (∀ x ∈ l, x ∉ q) → List.foldl insertTail q l = q ++ l := by
  intro l
  induction l with
  | nil =>
    intro q _ _
    simp
  | cons t rest ih =>
    intro q hnd hdisj
    rw [List.foldl_cons]
    have hnotmem : t ∉ q := hdisj t (List.mem_cons_self t rest)
    have hstep : insertTail q t = q ++ [t] := by
      simp [insertTail, hnotmem]
    rw [hstep, ih (q ++ [t]) (List.nodup_cons.mp hnd).2 ?_]
    · simp
    · intro x hx hmem
      rcases List.mem_append.mp hmem with hq | hs
      · exact hdisj x (List.mem_cons_of_mem t hx) hq
      · rw [List.mem_singleton] at hs
        subst hs
        exact (List.nodup_cons.mp hnd).1 hx

/-- C1: for presses on one game during a question by players with teams, the
queue snapshot lists team ids in order of first press with no duplicates —
in call order when the team ids are distinct; a press by an already-queued
team reports its existing 1-based position and leaves the queues untouched;
and a repeated press returns the same position as the first and leaves the
queue length and order unchanged. -/
theorem C1_enqueue_contract :
    (∀ (db : DB) (g : Game) (players : List Player) (m : QMap),
      g.status = "question" →
      (∀ p ∈ players, (get_player_team db p).isSome = true) →
      current_queue g (press_many db g players (reset_round m g.id)).2 =
        firstOccurrences
          (players.filterMap (fun p => (get_player_team db p).map Team.id)) ∧
      (current_queue g (press_many db g players (reset_round m g.id)).2).Nodup ∧
      ((players.filterMap (fun p => (get_player_team db p).map Team.id)).Nodup →
        current_queue g (press_many db g players (reset_round m g.id)).2 =
          players.filterMap (fun p => (get_player_team db p).map Team.id))) ∧
    (∀ (db : DB) (g : Game) (p : Player) (m : QMap) (t : Team),
      g.status = "question" → get_player_team db p = some t → t.id ∈ m g.id →
      (press_buzzer db g p m).1.position = some ((m g.id).indexOf t.id + 1) ∧
      (press_buzzer db g p m).2.2 = m) ∧
    (∀ (db : DB) (g : Game) (p : Player) (m : QMap) (t : Team),
      g.status = "question" → get_player_team db p = some t →
      (press_buzzer (press_buzzer db g p m).2.1 g p
          (press_buzzer db g p m).2.2).1.position =
        (press_buzzer db g p m).1.position ∧
      (press_buzzer (press_buzzer db g p m).2.1 g p
          (press_buzzer db g p m).2.2).2.2 = (press_buzzer db g p m).2.2) := by
  refine ⟨?_, ?_, ?_⟩
  · intro db g players m hst hall
    have hq0 : (reset_round m g.id) g.id = [] := by
      simp [reset_round]
    have hmain : current_queue g (press_many db g players (reset_round m g.id)).2 =
        List.foldl insertTail []
          (players.filterMap (fun p => (get_player_team db p).map Team.id)) := by
      have h := press_many_queue g players db (reset_round m g.id) hst hall
      rw [hq0] at h
      exact h
    refine ⟨hmain, ?_, ?_⟩
    · rw [hmain]
      exact foldl_insertTail_nodup _ [] List.nodup_nil
    · intro hnd
      rw [hmain, foldl_insertTail_eq_append _ [] hnd (by simp)]
      simp
  · intro db g p m t hst ht hmem
    rw [press_buzzer_mem db g p m t hst ht hmem]
    exact ⟨rfl, rfl⟩
  · intro db g p m t hst ht
    exact press_buzzer_twice db g p m t hst ht

/-- C1 witness: in the sample world, Alice, Bob and Alice again pressing
during a question yields the queue [Alpha, Beta]; Alice's immediate second
press returns her first position and leaves the queue map unchanged. -/
theorem C1_witness :
    current_queue gQuestion1
      (press_many dbAB gQuestion1 [alice, bob, alice] (reset_round qEmpty 1)).2 =
      [1, 2] ∧
    (press_buzzer (press_buzzer dbAB gQuestion1 alice qEmpty).2.1 gQuestion1 alice
        (press_buzzer dbAB gQuestion1 alice qEmpty).2.2).1.position =
      (press_buzzer dbAB gQuestion1 alice qEmpty).1.position := by
  constructor
  · have h := (C1_enqueue_contract.1 dbAB gQuestion1 [alice, bob, alice] qEmpty
      rfl (by decide)).1
    exact h.trans (by decide)
  · exact (C1_enqueue_contract.2.2 dbAB gQuestion1 alice qEmpty alphaTeam
      rfl (by decide)).1

/-- C10 witness: refreshing Alice with an absent username and an empty full
name leaves both stored values as they were. -/
theorem C10_witness :
    (get_or_create_player dbAB 100 none (some "") 9).1.username = some "alice" ∧
    (get_or_create_player dbAB 100 none (some "") 9).1.full_name = some "Alice A" := by
  have h := C10_metadata_refresh dbAB 100 none (some "") 9 alice (by decide)
  refine ⟨?_, ?_⟩
  · rw [h.1]
    decide
  · rw [h.2.1]
    decide

end Quizbot
